import Mathlib

/-!
# Verification of `lib/libzfs/libzfs_crypto.c`

A shallow embedding of the encryption-key management code of libzfs:
key-material validation, key derivation (raw copy, hex decode,
PBKDF2-HMAC-SHA1), the create/clone/rewrap policy decisions, the
load/unload retry loop, and the recursive best-effort key loader.

Bytes are modelled as `Nat` (values < 256 in practice), buffers as
`List Nat`, machine integers as `Nat`, and fallible C functions as
`Except` values whose error component is the C `errno` value returned.
The HMAC-SHA1 primitive lives outside this repository (it is reached
through the Illumos crypto framework's `crypto_mac`), so the functions
that use it are parameterised by an abstract
`hmac : List Nat → List Nat → List Nat` (key, then message, to a
20-byte digest).
-/

/-! ## Constants (errno values and libzfs/zfs constants) -/

def ENOENT : Nat := 2
def EACCES : Nat := 13
def EBUSY : Nat := 16
def EEXIST : Nat := 17
def EINVAL : Nat := 22

/-- `SHA1_DIGEST_LEN` -/
def SHA1_DIGEST_LEN : Nat := 20

/-- `WRAPPING_KEY_LEN` -/
def WRAPPING_KEY_LEN : Nat := 32

/-- `MIN_PASSPHRASE_LEN` (libzfs_crypto.c line 59) -/
def MIN_PASSPHRASE_LEN : Nat := 8

/-- `MAX_PASSPHRASE_LEN` (libzfs_crypto.c line 60) -/
def MAX_PASSPHRASE_LEN : Nat := 64

/-- `MAX_KEY_PROMPT_ATTEMPTS` (libzfs_crypto.c line 61) -/
def MAX_KEY_PROMPT_ATTEMPTS : Nat := 3

/-- `ZIO_CRYPT_INHERIT` -/
def ZIO_CRYPT_INHERIT : Nat := 0

/-- `ZIO_CRYPT_ON` -/
def ZIO_CRYPT_ON : Nat := 1

/-- `ZIO_CRYPT_OFF` -/
def ZIO_CRYPT_OFF : Nat := 2

/-- `ZFS_KEYSTATUS_NONE` -/
def ZFS_KEYSTATUS_NONE : Nat := 0

/-- `ZFS_KEYSTATUS_UNAVAILABLE` -/
def ZFS_KEYSTATUS_UNAVAILABLE : Nat := 1

/-- `ZFS_KEYSTATUS_AVAILABLE` -/
def ZFS_KEYSTATUS_AVAILABLE : Nat := 2

/-- `zfs_keyformat_t`: NONE / RAW / HEX / PASSPHRASE.  `none` doubles as
"keyformat property not present", exactly as in the C code, where the
`keyformat` local is initialised to `ZFS_KEYFORMAT_NONE` and only
overwritten when the nvlist lookup succeeds. -/
inductive Keyformat where
  | fmtNone
  | raw
  | hex
  | passphrase
deriving DecidableEq, Repr

deriving instance DecidableEq for Except

/-! ## Hex decoding (`hex_key_to_raw`, lines 76-101) -/

/-- C `isxdigit` on a byte value. -/
def isxdigit (c : Nat) : Bool :=
  (48 ≤ c && c ≤ 57) || (97 ≤ c && c ≤ 102) || (65 ≤ c && c ≤ 70)

/-- Value of one hex digit character (as `sscanf %02x` assigns it). -/
def hexDigitVal (c : Nat) : Nat :=
  if 48 ≤ c && c ≤ 57 then c - 48
  else if 97 ≤ c && c ≤ 102 then c - 87
  else if 65 ≤ c && c ≤ 70 then c - 55
  else 0

/-- `hex_key_to_raw` (lines 76-101): walk the buffer two characters at a
time; both characters of a pair must be hex digits (else `EINVAL`), and
`sscanf("%02x")` turns the pair into one byte, high nibble first.
The C caller always passes `hexlen = WRAPPING_KEY_LEN * 2`; here the
argument list carries exactly the `hexlen` characters scanned. -/
def hex_key_to_raw : List Nat → Except Nat (List Nat)
  | c1 :: c2 :: rest =>
    if isxdigit c1 && isxdigit c2 then
      match hex_key_to_raw rest with
      | Except.ok out => Except.ok ((hexDigitVal c1 * 16 + hexDigitVal c2) :: out)
      | Except.error e => Except.error e
    else
      Except.error EINVAL
  | _ => Except.ok []

/-- Modelled from the spec: "decode 64 hex characters into 32 bytes, two
characters per byte" with the high nibble first (the value a pair `c1 c2`
denotes is `16 * val c1 + val c2`). -/
def hexDecodePairs : List Nat → List Nat
  | c1 :: c2 :: rest => (hexDigitVal c1 * 16 + hexDigitVal c2) :: hexDecodePairs rest
  | _ => []

/-! ## PBKDF2 (`pbkdf2`, lines 415-550) -/

/-- `htobe32` written out as the four bytes stored into the HMAC-key
buffer: big-endian encoding of a 32-bit value. -/
def be32 (n : Nat) : List Nat :=
  [n / 2 ^ 24 % 256, n / 2 ^ 16 % 256, n / 2 ^ 8 % 256, n % 256]

/-- The 8 bytes that `(uint8_t *)&salt` exposes after `salt = LE_64(salt)`
in `derive_key`: the little-endian encoding of a 64-bit value. -/
def le64 (n : Nat) : List Nat :=
  [n % 256, n / 2 ^ 8 % 256, n / 2 ^ 16 % 256, n / 2 ^ 24 % 256,
   n / 2 ^ 32 % 256, n / 2 ^ 40 % 256, n / 2 ^ 48 % 256, n / 2 ^ 56 % 256]

/-- The XOR loop `block[i] ^= hmacresult[i]` over `SHA1_DIGEST_LEN` bytes. -/
def xorBytes (a b : List Nat) : List Nat :=
  List.zipWith (fun x y => x ^^^ y) a b

/-- Inner loop of `pbkdf2` (lines 498-522): run `iter` more HMAC
iterations, where `hmacKey` is the current HMAC input buffer (the salt
plus block index on entry, afterwards always the previous digest) and
`block` is the XOR accumulator (zero-initialised by the caller, line
496).  Each round computes `hmacresult = HMAC(passphrase, hmacKey)`,
copies it into the key buffer for the next round, and XORs it into
`block`. -/
def pbkdf2_inner (hmac : List Nat → List Nat → List Nat) (pass : List Nat) :
    Nat → List Nat → List Nat → List Nat
  | 0, _, block => block
  | iter + 1, hmacKey, block =>
    pbkdf2_inner hmac pass iter (hmac pass hmacKey)
      (xorBytes block (hmac pass hmacKey))

/-- `pbkdf2` (lines 415-550): for each output block position
`blockptr = 0, 20, 40, …` below `outputlen`, seed the HMAC input with
`salt ‖ htobe32(blockptr / 20 + 1)` (lines 491-493), run the inner loop
`iterations` times over a zeroed accumulator, and write the block at
`blockptr`, truncating the final block at `outputlen` (lines 528-532).
`hmac` abstracts `crypto_mac` with the `SUN_CKM_SHA1_HMAC` mechanism
keyed by the passphrase; the ICP setup, context template, and
`ENOMEM`/`EIO` plumbing have no counterpart for a total `hmac`. -/
def pbkdf2 (hmac : List Nat → List Nat → List Nat) (pass salt : List Nat)
    (iterations outputlen : Nat) : List Nat :=
  (List.flatten ((List.range ((outputlen + SHA1_DIGEST_LEN - 1) / SHA1_DIGEST_LEN)).map
    (fun b =>
      pbkdf2_inner hmac pass iterations (salt ++ be32 (b + 1))
        (List.replicate SHA1_DIGEST_LEN 0)))).take outputlen

/-- Modelled from the spec: the chain `U₁ = HMAC(passphrase, salt ‖ BE32(i))`,
`Uⱼ = HMAC(passphrase, Uⱼ₋₁)`.  `pbkdf2_U … i j` is `U_{j+1}`. -/
def pbkdf2_U (hmac : List Nat → List Nat → List Nat) (pass salt : List Nat)
    (i : Nat) : Nat → List Nat
  | 0 => hmac pass (salt ++ be32 i)
  | j + 1 => hmac pass (pbkdf2_U hmac pass salt i j)

/-- Modelled from the spec: output block `i` (1-indexed) of standard
PBKDF2 is the XOR of all of `U₁ … U_c`. -/
def pbkdf2_F (hmac : List Nat → List Nat → List Nat) (pass salt : List Nat)
    (c i : Nat) : List Nat :=
  List.foldl xorBytes (List.replicate SHA1_DIGEST_LEN 0)
    ((List.range c).map (fun j => pbkdf2_U hmac pass salt i j))

/-- Modelled from the spec: standard PBKDF2-HMAC-SHA1 — 20-byte blocks
`F(1), F(2), …` concatenated in order and truncated to the requested
output length. -/
def pbkdf2_spec (hmac : List Nat → List Nat → List Nat) (pass salt : List Nat)
    (iterations outputlen : Nat) : List Nat :=
  (List.flatten ((List.range ((outputlen + SHA1_DIGEST_LEN - 1) / SHA1_DIGEST_LEN)).map
    (fun b => pbkdf2_F hmac pass salt iterations (b + 1)))).take outputlen

/-! ## Key derivation (`derive_key`, lines 552-603) -/

/-- `derive_key` (lines 552-603).  Raw: `bcopy` of `WRAPPING_KEY_LEN`
bytes.  Hex: `hex_key_to_raw` over `WRAPPING_KEY_LEN * 2` characters
(`EINVAL` on a bad digit).  Passphrase: `pbkdf2` over the key material
with the 8-byte little-endian salt (`salt = LE_64(salt)`) and the given
iteration count, producing `WRAPPING_KEY_LEN` bytes; `key_material` is
the C string the code measures with `strlen`, modelled as its
NUL-terminator-free byte list.  Any other format: `EINVAL`. -/
def derive_key (hmac : List Nat → List Nat → List Nat) (format : Keyformat)
    (iters : Nat) (key_material : List Nat) (salt : Nat) :
    Except Nat (List Nat) :=
  match format with
  | Keyformat.raw => Except.ok (key_material.take WRAPPING_KEY_LEN)
  | Keyformat.hex =>
    match hex_key_to_raw (key_material.take (WRAPPING_KEY_LEN * 2)) with
    | Except.ok key => Except.ok key
    | Except.error e => Except.error e
  | Keyformat.passphrase =>
    Except.ok (pbkdf2 hmac key_material (le64 salt) iters WRAPPING_KEY_LEN)
  | Keyformat.fmtNone => Except.error EINVAL

/-! ## Key material reading and validation
(`get_key_material_raw` lines 126-238, `get_key_material` lines 246-413) -/

/-- The trailing-newline trim of `get_key_material_raw` (lines 212-216):
drop the final byte when it is `'\n'` (0x0A). -/
def trim_newline (l : List Nat) : List Nat :=
  if l.getLast? = some 10 then l.dropLast else l

/-- `get_key_material_raw` for the raw keyformat on a non-terminal
stream (lines 188-216): `fread` of up to `WRAPPING_KEY_LEN + 1` bytes —
one more than the expected 32, so an oversized file is detectable —
followed by the trailing-newline trim. -/
def read_raw_key_file (fileBytes : List Nat) : List Nat :=
  trim_newline (fileBytes.take (WRAPPING_KEY_LEN + 1))

/-- The distinct `zfs_error_aux` validation failures of
`get_key_material` (lines 301-367); every one of them is returned to the
caller as `EINVAL`. -/
inductive ValErr where
  | rawTooShort
  | rawTooLong
  | hexTooShort
  | hexTooLong
  | hexBadDigit
  | passTooLong
  | passTooShort
deriving DecidableEq, Repr

/-- The errno each validation failure is reported as: always `EINVAL`. -/
def errnoOfValErr : ValErr → Nat := fun _ => EINVAL

/-- The "basic validation of the key material" switch of
`get_key_material` (lines 301-367).  Raw: length exactly
`WRAPPING_KEY_LEN` (short checked first).  Hex: length exactly
`WRAPPING_KEY_LEN * 2` and each of the first 64 characters a hex digit.
Passphrase: length within `[MIN_PASSPHRASE_LEN, MAX_PASSPHRASE_LEN]`
(long checked first).  Default case: no check. -/
def validate_key_material (keyformat : Keyformat) (km : List Nat) :
    Except ValErr Unit :=
  match keyformat with
  | Keyformat.raw =>
    if km.length < WRAPPING_KEY_LEN then Except.error ValErr.rawTooShort
    else if km.length > WRAPPING_KEY_LEN then Except.error ValErr.rawTooLong
    else Except.ok ()
  | Keyformat.hex =>
    if km.length < WRAPPING_KEY_LEN * 2 then Except.error ValErr.hexTooShort
    else if km.length > WRAPPING_KEY_LEN * 2 then Except.error ValErr.hexTooLong
    else if (km.take (WRAPPING_KEY_LEN * 2)).all isxdigit then Except.ok ()
    else Except.error ValErr.hexBadDigit
  | Keyformat.passphrase =>
    if km.length > MAX_PASSPHRASE_LEN then Except.error ValErr.passTooLong
    else if km.length < MIN_PASSPHRASE_LEN then Except.error ValErr.passTooShort
    else Except.ok ()
  | Keyformat.fmtNone => Except.ok ()

/-! ## PBKDF2: the source loop matches the standard construction -/

/-- The HMAC input buffer at the start of inner-loop round `j`: the salt
plus block index before the first round, and afterwards the previous
round's digest. -/
def pbkdf2_chainKey (hmac : List Nat → List Nat → List Nat)
    (pass salt : List Nat) (i : Nat) : Nat → List Nat
  | 0 => salt ++ be32 i
  | j + 1 => pbkdf2_U hmac pass salt i j

theorem hmac_chainKey (hmac : List Nat → List Nat → List Nat)
    (pass salt : List Nat) (i : Nat) (j : Nat) :
    hmac pass (pbkdf2_chainKey hmac pass salt i j) = pbkdf2_U hmac pass salt i j := by
  cases j with
  | zero => rfl
  | succ j => rfl

theorem pbkdf2_inner_eq_foldl (hmac : List Nat → List Nat → List Nat)
    (pass salt : List Nat) (i : Nat) :
    ∀ (c j : Nat) (block : List Nat),
      pbkdf2_inner hmac pass c (pbkdf2_chainKey hmac pass salt i j) block =
        List.foldl xorBytes block
          ((List.range c).map (fun k => pbkdf2_U hmac pass salt i (j + k))) := by
  intro c
  induction c with
  | zero => intro j block; rfl
  | succ c ih =>
    intro j block
    have hstep :
        pbkdf2_inner hmac pass (c + 1) (pbkdf2_chainKey hmac pass salt i j) block =
          pbkdf2_inner hmac pass c (pbkdf2_chainKey hmac pass salt i (j + 1))
            (xorBytes block (pbkdf2_U hmac pass salt i j)) := by
      show pbkdf2_inner hmac pass c (hmac pass (pbkdf2_chainKey hmac pass salt i j))
            (xorBytes block (hmac pass (pbkdf2_chainKey hmac pass salt i j))) =
          pbkdf2_inner hmac pass c (pbkdf2_chainKey hmac pass salt i (j + 1))
            (xorBytes block (pbkdf2_U hmac pass salt i j))
      rw [hmac_chainKey hmac pass salt i j]
      rfl
    rw [hstep, ih (j + 1)]
    rw [List.range_succ_eq_map]
    rw [List.map_cons, List.map_map, List.foldl_cons, Nat.add_zero]
    have harg : ((fun k => pbkdf2_U hmac pass salt i (j + k)) ∘ Nat.succ) =
        (fun k => pbkdf2_U hmac pass salt i (j + 1 + k)) := by
      funext k
      show pbkdf2_U hmac pass salt i (j + Nat.succ k) = pbkdf2_U hmac pass salt i (j + 1 + k)
      congr 1
      omega
    rw [harg]
    simp

theorem pbkdf2_eq_pbkdf2_spec (hmac : List Nat → List Nat → List Nat)
    (pass salt : List Nat) (iterations outputlen : Nat) :
    pbkdf2 hmac pass salt iterations outputlen =
      pbkdf2_spec hmac pass salt iterations outputlen := by
  have hfun : (fun b =>
      pbkdf2_inner hmac pass iterations (salt ++ be32 (b + 1))
        (List.replicate SHA1_DIGEST_LEN 0)) =
      (fun b => pbkdf2_F hmac pass salt iterations (b + 1)) := by
    funext b
    rw [pbkdf2_F]
    have h := pbkdf2_inner_eq_foldl hmac pass salt (b + 1) iterations 0
      (List.replicate SHA1_DIGEST_LEN 0)
    simp only [pbkdf2_chainKey, Nat.zero_add] at h
    exact h
  rw [pbkdf2, pbkdf2_spec, hfun]

theorem pbkdf2_U_length (hmac : List Nat → List Nat → List Nat)
    (h20 : ∀ k m, (hmac k m).length = SHA1_DIGEST_LEN)
    (pass salt : List Nat) (i j : Nat) :
    (pbkdf2_U hmac pass salt i j).length = SHA1_DIGEST_LEN := by
  cases j with
  | zero => exact h20 _ _
  | succ j => exact h20 _ _

theorem foldl_xorBytes_length (L : List (List Nat)) :
    ∀ acc : List Nat, acc.length = SHA1_DIGEST_LEN →
      (∀ x ∈ L, x.length = SHA1_DIGEST_LEN) →
      (List.foldl xorBytes acc L).length = SHA1_DIGEST_LEN := by
  induction L with
  | nil => intro acc ha _; exact ha
  | cons x xs ih =>
    intro acc ha hL
    rw [List.foldl_cons]
    apply ih
    · rw [xorBytes, List.length_zipWith, ha, hL x (by simp)]
      simp
    · intro y hy
      exact hL y (List.mem_cons_of_mem _ hy)

theorem pbkdf2_F_length (hmac : List Nat → List Nat → List Nat)
    (h20 : ∀ k m, (hmac k m).length = SHA1_DIGEST_LEN)
    (pass salt : List Nat) (c i : Nat) :
    (pbkdf2_F hmac pass salt c i).length = SHA1_DIGEST_LEN := by
  rw [pbkdf2_F]
  apply foldl_xorBytes_length
  · simp
  · intro x hx
    rcases List.mem_map.mp hx with ⟨j, _, rfl⟩
    exact pbkdf2_U_length hmac h20 pass salt i j

theorem pbkdf2_spec_length (hmac : List Nat → List Nat → List Nat)
    (h20 : ∀ k m, (hmac k m).length = SHA1_DIGEST_LEN)
    (pass salt : List Nat) (c : Nat) :
    (pbkdf2_spec hmac pass salt c WRAPPING_KEY_LEN).length = WRAPPING_KEY_LEN := by
  rw [pbkdf2_spec]
  rw [List.length_take]
  have h2 : (WRAPPING_KEY_LEN + SHA1_DIGEST_LEN - 1) / SHA1_DIGEST_LEN = 2 := by decide
  have hr : List.range 2 = [0, 1] := by decide
  rw [h2, hr]
  simp only [List.map_cons, List.map_nil, List.flatten_cons, List.flatten_nil,
    List.length_append, List.length_nil]
  rw [pbkdf2_F_length hmac h20, pbkdf2_F_length hmac h20]
  decide

/-- C1: for every passphrase, 64-bit salt value, and iteration count,
`derive_key` with the Passphrase format produces the standard
PBKDF2-HMAC-SHA1 output of length 32 bytes, computed over the 8-byte
little-endian encoding of the salt: for each 20-byte block index `i`
(1-indexed), `U₁ = HMAC(passphrase, salt ‖ BE32(i))`,
`Uⱼ = HMAC(passphrase, Uⱼ₋₁)`, the block is the XOR of all `Uⱼ`, and
blocks are concatenated in order and truncated to 32 bytes.  `hmac`
abstracts the external HMAC-SHA1 primitive (20-byte digests). -/
theorem derive_passphrase_is_standard_pbkdf2
    (hmac : List Nat → List Nat → List Nat)
    (h20 : ∀ k m, (hmac k m).length = SHA1_DIGEST_LEN)
    (pass : List Nat) (salt iterations : Nat) :
    derive_key hmac Keyformat.passphrase iterations pass salt =
      Except.ok (pbkdf2_spec hmac pass (le64 salt) iterations WRAPPING_KEY_LEN) ∧
    (pbkdf2_spec hmac pass (le64 salt) iterations WRAPPING_KEY_LEN).length =
      WRAPPING_KEY_LEN := by
  constructor
  · show Except.ok (pbkdf2 hmac pass (le64 salt) iterations WRAPPING_KEY_LEN) =
      Except.ok (pbkdf2_spec hmac pass (le64 salt) iterations WRAPPING_KEY_LEN)
    rw [pbkdf2_eq_pbkdf2_spec]
  · exact pbkdf2_spec_length hmac h20 pass (le64 salt) iterations

theorem derive_passphrase_is_standard_pbkdf2_witness :
    derive_key (fun _ _ => List.replicate 20 0) Keyformat.passphrase 1 [97] 0 =
      Except.ok (pbkdf2_spec (fun _ _ => List.replicate 20 0) [97] (le64 0) 1
        WRAPPING_KEY_LEN) :=
  (derive_passphrase_is_standard_pbkdf2 (fun _ _ => List.replicate 20 0)
    (fun _ _ => rfl) [97] 0 1).1

/-- C10: for an iteration count of 0, the PBKDF2 derivation path returns
success with a wrapping key of 32 zero bytes for every passphrase and
salt — the per-block inner loop never runs, so the output keeps its zero
initialisation; no minimum-iteration floor is enforced inside
`derive_key`/`pbkdf2` themselves. -/
theorem pbkdf2_zero_iterations_all_zero (hmac : List Nat → List Nat → List Nat)
    (pass : List Nat) (salt : Nat) :
    derive_key hmac Keyformat.passphrase 0 pass salt =
      Except.ok (List.replicate WRAPPING_KEY_LEN 0) := rfl

/-! ## Hex format: validation and decoding (C5) -/

theorem hex_key_to_raw_all_xdigit :
    ∀ (n : Nat) (km : List Nat), km.length ≤ n → km.all isxdigit = true →
      hex_key_to_raw km = Except.ok (hexDecodePairs km) := by
  intro n
  induction n with
  | zero =>
    intro km hlen _
    match km with
    | [] => rfl
    | c :: rest => simp at hlen
  | succ n ih =>
    intro km hlen hall
    match km with
    | [] => rfl
    | [c] => rfl
    | c1 :: c2 :: rest =>
      simp only [List.all_cons, Bool.and_eq_true] at hall
      have hrest : hex_key_to_raw rest = Except.ok (hexDecodePairs rest) := by
        apply ih rest
        · simp only [List.length_cons] at hlen
          omega
        · exact hall.2.2
      simp [hex_key_to_raw, hexDecodePairs, hall.1, hall.2.1, hrest]

theorem hexDecodePairs_length :
    ∀ (n : Nat) (km : List Nat), km.length ≤ n →
      (hexDecodePairs km).length = km.length / 2 := by
  intro n
  induction n with
  | zero =>
    intro km hlen
    match km with
    | [] => rfl
    | c :: rest => simp at hlen
  | succ n ih =>
    intro km hlen
    match km with
    | [] => rfl
    | [c] => simp [hexDecodePairs]
    | c1 :: c2 :: rest =>
      have hrest : (hexDecodePairs rest).length = rest.length / 2 := by
        apply ih rest
        simp only [List.length_cons] at hlen
        omega
      simp only [hexDecodePairs, List.length_cons, hrest]
      omega

/-- C5: hex key material is accepted iff its length is exactly 64
characters and every character is a hex digit; for accepted material,
`derive_key` decodes it into 32 bytes at two characters per byte, high
nibble first (`hexDecodePairs`); any other length or any non-hex
character yields one of the `EINVAL` validation failures. -/
theorem hex_format_validation_and_derive
    (hmac : List Nat → List Nat → List Nat) (iters salt : Nat) (km : List Nat) :
    (validate_key_material Keyformat.hex km = Except.ok () ↔
      (km.length = 64 ∧ km.all isxdigit = true)) ∧
    (validate_key_material Keyformat.hex km = Except.ok () →
      derive_key hmac Keyformat.hex iters km salt = Except.ok (hexDecodePairs km) ∧
      (hexDecodePairs km).length = 32) ∧
    (¬(km.length = 64 ∧ km.all isxdigit = true) →
      ∃ e, validate_key_material Keyformat.hex km = Except.error e ∧
        errnoOfValErr e = EINVAL) := by
  have hval : validate_key_material Keyformat.hex km = Except.ok () ↔
      (km.length = 64 ∧ km.all isxdigit = true) := by
    rw [validate_key_material]
    constructor
    · intro h
      by_cases h1 : km.length < WRAPPING_KEY_LEN * 2
      · rw [if_pos h1] at h
        exact absurd h (by simp)
      · rw [if_neg h1] at h
        by_cases h2 : km.length > WRAPPING_KEY_LEN * 2
        · rw [if_pos h2] at h
          exact absurd h (by simp)
        · rw [if_neg h2] at h
          have hlen : km.length = 64 := by
            simp only [WRAPPING_KEY_LEN] at h1 h2
            omega
          refine ⟨hlen, ?_⟩
          by_cases h3 : (km.take (WRAPPING_KEY_LEN * 2)).all isxdigit = true
          · have : km.take (WRAPPING_KEY_LEN * 2) = km := by
              apply List.take_of_length_le
              simp [WRAPPING_KEY_LEN, hlen]
            rw [this] at h3
            exact h3
          · rw [if_neg h3] at h
            exact absurd h (by simp)
    · intro ⟨hlen, hall⟩
      have htake : km.take (WRAPPING_KEY_LEN * 2) = km := by
        apply List.take_of_length_le
        simp [WRAPPING_KEY_LEN, hlen]
      rw [if_neg (by simp [WRAPPING_KEY_LEN, hlen]),
        if_neg (by simp [WRAPPING_KEY_LEN, hlen]), htake, if_pos hall]
  refine ⟨hval, ?_, ?_⟩
  · intro h
    have ⟨hlen, hall⟩ := hval.mp h
    have htake : km.take (WRAPPING_KEY_LEN * 2) = km := by
      apply List.take_of_length_le
      simp [WRAPPING_KEY_LEN, hlen]
    constructor
    · rw [derive_key, htake, hex_key_to_raw_all_xdigit km.length km (Nat.le_refl _) hall]
    · rw [hexDecodePairs_length km.length km (Nat.le_refl _), hlen]
  · intro h
    rcases hne : validate_key_material Keyformat.hex km with e | u
    · exact ⟨e, rfl, rfl⟩
    · exact absurd (hval.mp (by rw [hne])) h

theorem hex_format_validation_and_derive_witness :
    derive_key (fun _ _ => []) Keyformat.hex 0 (List.replicate 64 48) 0 =
      Except.ok (hexDecodePairs (List.replicate 64 48)) ∧
    (hexDecodePairs (List.replicate 64 48)).length = 32 :=
  (hex_format_validation_and_derive (fun _ _ => []) 0 0 (List.replicate 64 48)).2.1
    (by decide)

/-! ## Raw format: reading, trimming, validation (C4) -/

/-- C4 counterexample: a 32-byte raw input whose last byte is a newline
(0x0A) is NOT accepted — `get_key_material_raw` strips the trailing
newline (lines 212-216), leaving 31 bytes, which raw validation rejects
as too short.  So "an input of exactly 32 bytes is accepted … for every
possible 32-byte value of the input" is false on the code. -/
theorem raw_32_byte_newline_input_rejected :
    (List.replicate 31 0 ++ [10]).length = 32 ∧
    validate_key_material Keyformat.raw
        (read_raw_key_file (List.replicate 31 0 ++ [10])) =
      Except.error ValErr.rawTooShort := by
  constructor
  · decide
  · decide

/-- C4 (amended): for raw key material whose last byte is not a newline
(so the trailing-newline trim of the read path does not fire), an input
of exactly 32 bytes passes validation and yields a wrapping key
identical to those 32 bytes, while inputs of 31 or 33 bytes are rejected
with the `EINVAL` too-short and too-long failures respectively. -/
theorem raw_format_exact_length
    (hmac : List Nat → List Nat → List Nat) (iters salt : Nat) (bs : List Nat)
    (hnl : bs.getLast? ≠ some 10) :
    (bs.length = 32 →
      validate_key_material Keyformat.raw (read_raw_key_file bs) = Except.ok () ∧
      derive_key hmac Keyformat.raw iters (read_raw_key_file bs) salt =
        Except.ok bs) ∧
    (bs.length = 31 →
      validate_key_material Keyformat.raw (read_raw_key_file bs) =
        Except.error ValErr.rawTooShort) ∧
    (bs.length = 33 →
      validate_key_material Keyformat.raw (read_raw_key_file bs) =
        Except.error ValErr.rawTooLong) := by
  have hread : ∀ hlen : bs.length ≤ 33, read_raw_key_file bs = bs := by
    intro hlen
    rw [read_raw_key_file]
    have htake : bs.take (WRAPPING_KEY_LEN + 1) = bs := by
      apply List.take_of_length_le
      simp [WRAPPING_KEY_LEN]
      omega
    rw [htake, trim_newline, if_neg hnl]
  refine ⟨?_, ?_, ?_⟩
  · intro h32
    rw [hread (by omega)]
    constructor
    · rw [validate_key_material, if_neg (by simp [WRAPPING_KEY_LEN, h32]),
        if_neg (by simp [WRAPPING_KEY_LEN, h32])]
    · rw [derive_key]
      congr 1
      apply List.take_of_length_le
      simp [WRAPPING_KEY_LEN, h32]
  · intro h31
    rw [hread (by omega), validate_key_material,
      if_pos (by simp [WRAPPING_KEY_LEN, h31])]
  · intro h33
    rw [hread (by omega), validate_key_material,
      if_neg (by simp [WRAPPING_KEY_LEN, h33]),
      if_pos (by simp [WRAPPING_KEY_LEN, h33])]

theorem raw_format_exact_length_witness :
    validate_key_material Keyformat.raw
        (read_raw_key_file (List.replicate 32 7)) = Except.ok () ∧
    derive_key (fun _ _ => []) Keyformat.raw 0
        (read_raw_key_file (List.replicate 32 7)) 0 =
      Except.ok (List.replicate 32 7) :=
  (raw_format_exact_length (fun _ _ => []) 0 0 (List.replicate 32 7)
    (by decide)).1 (by decide)

/-! ## Key load retry loop (`zfs_crypto_load_key`, lines 1166-1317) -/

/-- What one pass of the `try_again` body observes.  `acquireErr e`:
`get_key_material` or `derive_key` failed with errno `e` (the code sets
`correctible = B_TRUE` before these calls, line 1248).  `ioctlErr e`:
`lzc_load_key` failed with errno `e` (`correctible` is reset to
`B_FALSE` before the ioctl and set again only for `EACCES`, lines
1263-1283).  `success`: the ioctl succeeded. -/
inductive AttemptResult where
  | acquireErr (e : Nat)
  | ioctlErr (e : Nat)
  | success
deriving DecidableEq, Repr

/-- The `try_again` loop of `zfs_crypto_load_key` (lines 1246-1316).
`env n` is what the n-th pass observes (the user may type a different
key each time), `can_retry` is `get_key_material`'s flag (true iff the
keylocation is an interactive prompt on a tty; it is the same on every
pass), and `attempts` is the C `attempts` counter, incremented after
each failed pass that satisfies
`can_retry && correctible && attempts <= MAX_KEY_PROMPT_ATTEMPTS`
(line 1311).  Returns the final result and the number of passes made. -/
def load_key_go (can_retry : Bool) (env : Nat → AttemptResult) (attempts : Nat) :
    Except Nat Unit × Nat :=
  match env attempts with
  | AttemptResult.success => (Except.ok (), attempts + 1)
  | AttemptResult.acquireErr e =>
    if h : can_retry = true ∧ attempts ≤ MAX_KEY_PROMPT_ATTEMPTS then
      load_key_go can_retry env (attempts + 1)
    else (Except.error e, attempts + 1)
  | AttemptResult.ioctlErr e =>
    if h : e = EACCES ∧ can_retry = true ∧ attempts ≤ MAX_KEY_PROMPT_ATTEMPTS then
      load_key_go can_retry env (attempts + 1)
    else (Except.error e, attempts + 1)
termination_by MAX_KEY_PROMPT_ATTEMPTS + 1 - attempts
decreasing_by
  all_goals simp [MAX_KEY_PROMPT_ATTEMPTS] at *
  all_goals omega

/-- The precondition checks of `zfs_crypto_load_key` before the
`try_again` loop (lines 1184-1244): encryption feature enabled;
keyformat not NONE ("not encrypted"); keylocation not inherited (must
be an encryption root); and, unless `noop`, the key not already loaded
(`EEXIST`).  The second component counts the acquisition passes made. -/
structure LoadInput where
  featureEnabled : Bool
  keyformat : Keyformat
  keylocInherited : Bool
  noop : Bool
  keystatus : Nat
  interactive : Bool
deriving Repr

def zfs_crypto_load_key (inp : LoadInput) (env : Nat → AttemptResult) :
    Except Nat Unit × Nat :=
  if inp.featureEnabled = false then (Except.error EINVAL, 0)
  else if inp.keyformat = Keyformat.fmtNone then (Except.error EINVAL, 0)
  else if inp.keylocInherited = true then (Except.error EINVAL, 0)
  else if inp.noop = false ∧ inp.keystatus = ZFS_KEYSTATUS_AVAILABLE then
    (Except.error EEXIST, 0)
  else load_key_go inp.interactive env 0

/-- C2: evidence for the retry-bound bug.  With an interactive source
whose every entry is rejected by the kernel as a wrong key (`EACCES`),
the loop makes FIVE prompt passes before surfacing `EACCES` — the guard
`attempts <= MAX_KEY_PROMPT_ATTEMPTS` (i.e. `attempts <= 3`) with a
post-increment lets attempts 0,1,2,3 all retry — although the constant
is named `MAX_KEY_PROMPT_ATTEMPTS = 3` and the spec says three entries
exhaust the budget.  A file-sourced wrong key fails on the first pass
with no retry, as claimed. -/
theorem load_key_wrong_key_retry_counts :
    zfs_crypto_load_key
        ⟨true, Keyformat.passphrase, false, false, ZFS_KEYSTATUS_UNAVAILABLE, true⟩
        (fun _ => AttemptResult.ioctlErr EACCES) = (Except.error EACCES, 5) ∧
    zfs_crypto_load_key
        ⟨true, Keyformat.passphrase, false, false, ZFS_KEYSTATUS_UNAVAILABLE, false⟩
        (fun _ => AttemptResult.ioctlErr EACCES) = (Except.error EACCES, 1) := by
  constructor
  · simp [zfs_crypto_load_key, load_key_go, EACCES, MAX_KEY_PROMPT_ATTEMPTS,
      ZFS_KEYSTATUS_UNAVAILABLE, ZFS_KEYSTATUS_AVAILABLE]
  · simp [zfs_crypto_load_key, load_key_go, EACCES, MAX_KEY_PROMPT_ATTEMPTS,
      ZFS_KEYSTATUS_UNAVAILABLE, ZFS_KEYSTATUS_AVAILABLE]

/-- C3 counterexample: a validation error of interactively entered key
material (an `EINVAL` failure from `get_key_material`, e.g. a too-short
passphrase) IS retried: with a first interactive entry failing
validation and a second entry succeeding, the load returns success
after 2 acquisition passes instead of surfacing the validation error
immediately.  (`correctible = B_TRUE` is set before `get_key_material`,
line 1248, so fetching/deriving failures are retryable, not just the
storage layer's `EACCES`.) -/
theorem interactive_validation_error_is_retried :
    zfs_crypto_load_key
        ⟨true, Keyformat.passphrase, false, false, ZFS_KEYSTATUS_UNAVAILABLE, true⟩
        (fun n => if n = 0 then AttemptResult.acquireErr EINVAL
                  else AttemptResult.success) = (Except.ok (), 2) := by
  simp [zfs_crypto_load_key, load_key_go, EINVAL, MAX_KEY_PROMPT_ATTEMPTS,
    ZFS_KEYSTATUS_UNAVAILABLE, ZFS_KEYSTATUS_AVAILABLE]

/-- C3 (amended): key-material acquisition/validation failures are
correctible: non-interactive ones surface immediately with no retry;
storage-layer failures other than `EACCES` surface immediately even
interactively; and an interactive acquisition/validation failure is
retried (the loop re-runs acquisition), exactly like interactive
`EACCES`. -/
theorem load_retry_policy_amended (env : Nat → AttemptResult) (e : Nat) :
    (env 0 = AttemptResult.acquireErr e →
      load_key_go false env 0 = (Except.error e, 1)) ∧
    (∀ b : Bool, env 0 = AttemptResult.ioctlErr e → e ≠ EACCES →
      load_key_go b env 0 = (Except.error e, 1)) ∧
    (env 0 = AttemptResult.acquireErr e →
      load_key_go true env 0 = load_key_go true env 1) := by
  refine ⟨?_, ?_, ?_⟩
  · intro henv
    simp [load_key_go, henv]
  · intro b henv he
    simp [load_key_go, henv, he]
  · intro henv
    simp [load_key_go, henv, MAX_KEY_PROMPT_ATTEMPTS]

theorem load_retry_policy_amended_witness :
    load_key_go true
        (fun n => if n = 0 then AttemptResult.acquireErr 22
                  else AttemptResult.success) 0 =
      load_key_go true
        (fun n => if n = 0 then AttemptResult.acquireErr 22
                  else AttemptResult.success) 1 :=
  (load_retry_policy_amended
    (fun n => if n = 0 then AttemptResult.acquireErr 22
              else AttemptResult.success) 22).2.2 rfl

/-! ## Create and clone policy (`zfs_crypto_create` lines 782-948,
`zfs_crypto_clone` lines 950-1088) -/

/-- The crypto-relevant properties of the nvlist handed to create/clone.
`crypt = none` / `keylocation = none` / `pbkdf2iters = none` model
absent nvlist entries; `keyformat = Keyformat.fmtNone` models an absent
keyformat entry, matching the C locals' `ZFS_KEYFORMAT_NONE` defaults. -/
structure CreateProps where
  crypt : Option Nat
  keyformat : Keyformat
  keylocation : Option String
  pbkdf2iters : Option Nat
deriving DecidableEq, Repr

/-- `proplist_has_encryption_props` (lines 719-747): encryption present
and not OFF, or keylocation present and not `"none"`, or keyformat
present, or pbkdf2iters present. -/
def proplist_has_encryption_props (p : CreateProps) : Bool :=
  (match p.crypt with
   | some c => c ≠ ZIO_CRYPT_OFF
   | none => false) ||
  (match p.keylocation with
   | some s => s ≠ "none"
   | none => false) ||
  (p.keyformat ≠ Keyformat.fmtNone) ||
  p.pbkdf2iters.isSome

/-- Outcome of a successful create/clone decision: the (possibly
updated) property list, and whether the dataset becomes a new
encryption root — i.e. whether a keylocation is resolved and
`populate_create_encryption_params_nvlists` runs the key-collection
pipeline to produce a wrapping key (lines 924-930 / 1065-1071). -/
structure CreateResult where
  props : CreateProps
  newRoot : Bool
deriving DecidableEq, Repr

/-- `zfs_crypto_create` (lines 782-948) as a pure decision, for the
ordinary case of an existing parent dataset (`parent_name != NULL`; the
pool-root special case differs only in where `featureEnabled` and
`pcrypt = ZIO_CRYPT_OFF` come from).  The key-collection pipeline that
runs when a keylocation is resolved is abstracted into
`CreateResult.newRoot`. -/
def zfs_crypto_create (featureEnabled : Bool) (pcrypt : Nat)
    (props : CreateProps) : Except Nat CreateResult :=
  let local_crypt := props.crypt.isSome
  let crypt0 := props.crypt.getD ZIO_CRYPT_INHERIT
  if featureEnabled = false then
    if proplist_has_encryption_props props then Except.error EINVAL
    else Except.ok ⟨props, false⟩
  else if crypt0 = ZIO_CRYPT_OFF ∧ pcrypt ≠ ZIO_CRYPT_OFF then Except.error EINVAL
  else
    let crypt := if local_crypt then crypt0 else pcrypt
    if crypt = ZIO_CRYPT_OFF then
      if proplist_has_encryption_props props then Except.error EINVAL
      else Except.ok ⟨props, false⟩
    else if pcrypt = ZIO_CRYPT_OFF ∧ props.keylocation = none ∧
        props.keyformat = Keyformat.fmtNone then
      Except.error EINVAL
    else if props.keylocation ≠ none ∧ props.keyformat = Keyformat.fmtNone then
      Except.error EINVAL
    else
      let props' := if props.keyformat ≠ Keyformat.fmtNone ∧ props.keylocation = none
        then { props with keylocation := some "prompt" } else props
      Except.ok ⟨props', props'.keylocation ≠ none⟩

/-- `zfs_crypto_clone` (lines 950-1088) as a pure decision.  Order of
checks as in the code: explicit encryption property (reject), encrypted
parent with unencrypted origin (reject), unencrypted origin (accept
unless crypto props set), keylocation without keyformat (reject),
default keylocation to prompt, origin key status (reject `EACCES`),
unencrypted parent without keyformat (reject), then accept. -/
def zfs_crypto_clone (pcrypt ocrypt okey_status : Nat) (props : CreateProps) :
    Except Nat CreateResult :=
  if props.crypt.isSome then Except.error EINVAL
  else if pcrypt ≠ ZIO_CRYPT_OFF ∧ ocrypt = ZIO_CRYPT_OFF then Except.error EINVAL
  else if ocrypt = ZIO_CRYPT_OFF then
    if proplist_has_encryption_props props then Except.error EINVAL
    else Except.ok ⟨props, false⟩
  else if props.keylocation ≠ none ∧ props.keyformat = Keyformat.fmtNone then
    Except.error EINVAL
  else
    let props' := if props.keyformat ≠ Keyformat.fmtNone ∧ props.keylocation = none
      then { props with keylocation := some "prompt" } else props
    if okey_status ≠ ZFS_KEYSTATUS_AVAILABLE then Except.error EACCES
    else if pcrypt = ZIO_CRYPT_OFF ∧ props.keyformat = Keyformat.fmtNone then
      Except.error EINVAL
    else Except.ok ⟨props', props'.keylocation ≠ none⟩

/-- C6: with the feature enabled and the effective encryption value
(`props.crypt` if present, else the parent's) not OFF:
keylocation without keyformat is rejected `EINVAL`; keyformat without
keylocation defaults keylocation to `"prompt"`, persists it in the
output properties, and makes the dataset a new encryption root; and an
unencrypted parent with neither keyformat nor keylocation is rejected
`EINVAL` ("Keyformat required for new encryption root"). -/
theorem create_keyformat_keylocation_pairing (pcrypt : Nat) (props : CreateProps)
    (heff : props.crypt.getD pcrypt ≠ ZIO_CRYPT_OFF) :
    (props.keylocation ≠ none → props.keyformat = Keyformat.fmtNone →
      zfs_crypto_create true pcrypt props = Except.error EINVAL) ∧
    (props.keyformat ≠ Keyformat.fmtNone → props.keylocation = none →
      zfs_crypto_create true pcrypt props =
        Except.ok ⟨{ props with keylocation := some "prompt" }, true⟩) ∧
    (pcrypt = ZIO_CRYPT_OFF → props.keyformat = Keyformat.fmtNone →
      props.keylocation = none →
      zfs_crypto_create true pcrypt props = Except.error EINVAL) := by
  refine ⟨?_, ?_, ?_⟩
  · intro hloc hfmt
    rcases hc : props.crypt with _ | c
    · rw [hc] at heff
      simp only [Option.getD_none, ZIO_CRYPT_OFF] at heff
      simp [zfs_crypto_create, hc, heff, hloc, hfmt, ZIO_CRYPT_INHERIT, ZIO_CRYPT_OFF]
    · rw [hc] at heff
      simp only [Option.getD_some, ZIO_CRYPT_OFF] at heff
      simp [zfs_crypto_create, hc, heff, hloc, hfmt, ZIO_CRYPT_INHERIT, ZIO_CRYPT_OFF]
  · intro hfmt hloc
    rcases hc : props.crypt with _ | c
    · rw [hc] at heff
      simp only [Option.getD_none, ZIO_CRYPT_OFF] at heff
      simp [zfs_crypto_create, hc, heff, hloc, hfmt, ZIO_CRYPT_INHERIT, ZIO_CRYPT_OFF]
    · rw [hc] at heff
      simp only [Option.getD_some, ZIO_CRYPT_OFF] at heff
      simp [zfs_crypto_create, hc, heff, hloc, hfmt, ZIO_CRYPT_INHERIT, ZIO_CRYPT_OFF]
  · intro hp hfmt hloc
    rcases hc : props.crypt with _ | c
    · rw [hc] at heff
      simp only [Option.getD_none, ZIO_CRYPT_OFF] at heff
      simp only [ZIO_CRYPT_OFF] at hp
      exact absurd hp heff
    · rw [hc] at heff
      simp only [Option.getD_some, ZIO_CRYPT_OFF] at heff
      simp [zfs_crypto_create, hc, heff, hp, hloc, hfmt, ZIO_CRYPT_INHERIT, ZIO_CRYPT_OFF]

theorem create_keyformat_keylocation_pairing_witness :
    zfs_crypto_create true ZIO_CRYPT_OFF
        ⟨some ZIO_CRYPT_ON, Keyformat.passphrase, none, none⟩ =
      Except.ok ⟨⟨some ZIO_CRYPT_ON, Keyformat.passphrase, some "prompt", none⟩,
        true⟩ :=
  (create_keyformat_keylocation_pairing ZIO_CRYPT_OFF
    ⟨some ZIO_CRYPT_ON, Keyformat.passphrase, none, none⟩ (by decide)).2.1
    (by decide) rfl

/-- C7 counterexample: with an encrypted origin whose key status is
Unavailable, supplying a keylocation without a keyformat makes the
clone fail with `EINVAL` ("Keyformat required for new encryption
root", lines 1025-1030), not `EACCES` — that check runs before the
origin key-status check (lines 1045-1051).  So "rejected with
AccessDenied regardless of which other properties were supplied" is
false on the code. -/
theorem clone_unavailable_key_not_always_eacces :
    zfs_crypto_clone ZIO_CRYPT_OFF ZIO_CRYPT_ON ZFS_KEYSTATUS_UNAVAILABLE
        ⟨none, Keyformat.fmtNone, some "prompt", none⟩ = Except.error EINVAL ∧
    EINVAL ≠ EACCES := by
  constructor
  · decide
  · decide

/-- C7 (amended): whenever the origin is encrypted with key status
Unavailable and the supplied properties survive the earlier validation
(no explicit encryption property, and not keylocation-without-
keyformat), the clone is rejected with `EACCES` regardless of the
remaining properties. -/
theorem clone_origin_key_unavailable_eacces (pcrypt ocrypt : Nat)
    (props : CreateProps) (hcrypt : props.crypt = none)
    (hoc : ocrypt ≠ ZIO_CRYPT_OFF)
    (hkl : ¬(props.keylocation ≠ none ∧ props.keyformat = Keyformat.fmtNone)) :
    zfs_crypto_clone pcrypt ocrypt ZFS_KEYSTATUS_UNAVAILABLE props =
      Except.error EACCES := by
  rw [zfs_crypto_clone]
  rw [if_neg (by simp [hcrypt])]
  rw [if_neg (by intro hand; exact hoc hand.2)]
  rw [if_neg hoc]
  rw [if_neg hkl]
  rw [if_pos (by decide)]

theorem clone_origin_key_unavailable_eacces_witness :
    zfs_crypto_clone ZIO_CRYPT_OFF ZIO_CRYPT_ON ZFS_KEYSTATUS_UNAVAILABLE
        ⟨none, Keyformat.passphrase, none, none⟩ = Except.error EACCES :=
  clone_origin_key_unavailable_eacces ZIO_CRYPT_OFF ZIO_CRYPT_ON
    ⟨none, Keyformat.passphrase, none, none⟩ rfl (by decide) (by decide)

/-! ## Rewrap policy (`zfs_crypto_rewrap`, lines 1402-1622) -/

/-- The dataset-tree facts `zfs_crypto_rewrap` reads.  `inheritkey`
selects the InheritFromParent mode.  `propsValid` is the
`zfs_crypto_verify_rewrap_nvlist` outcome (every supplied property name
is one of keyformat/keylocation/pbkdf2iters, lines 1402-1449).
`hasParentName` is `zfs_parent_name` succeeding (false for a pool-root
dataset); `parentExists` is `make_dataset_handle` on that name
succeeding. -/
structure RewrapInput where
  featureEnabled : Bool
  crypt : Nat
  inheritkey : Bool
  propsValid : Bool
  is_encroot : Bool
  hasParentName : Bool
  parentExists : Bool
  pcrypt : Nat
  pkeystatus : Nat
  keystatus : Nat
deriving DecidableEq, Repr

/-- `zfs_crypto_rewrap` (lines 1451-1622) as a pure decision.  The
key-collection pipeline of the rekey mode
(`populate_create_encryption_params_nvlists`, lines 1525-1529) is
abstracted as succeeding — its own failures are acquisition I/O — and a
successful decision returns whether a new wrapping key is handed to
`lzc_change_key` (`true` in rekey mode, `false` in inherit mode, where
`wkeydata` stays NULL). -/
def zfs_crypto_rewrap (a : RewrapInput) : Except Nat Bool :=
  if a.featureEnabled = false then Except.error EINVAL
  else if a.crypt = ZIO_CRYPT_OFF then Except.error EINVAL
  else if a.inheritkey = false then
    if a.propsValid = false then Except.error EINVAL
    else if a.keystatus = ZFS_KEYSTATUS_UNAVAILABLE then Except.error EACCES
    else Except.ok true
  else
    if a.is_encroot = false then Except.error EINVAL
    else if a.hasParentName = false then Except.error EINVAL
    else if a.parentExists = false then Except.error ENOENT
    else if a.pcrypt = ZIO_CRYPT_OFF then Except.error EINVAL
    else if a.pkeystatus = ZFS_KEYSTATUS_UNAVAILABLE then Except.error EACCES
    else if a.keystatus = ZFS_KEYSTATUS_UNAVAILABLE then Except.error EACCES
    else Except.ok false

/-- C8: with the feature enabled and the dataset encrypted, the
InheritFromParent mode succeeds iff the dataset is currently an
encryption root, has a parent (a parent name and a parent that can be
opened), the parent is encrypted, the parent's key is Available and the
dataset's own key is Available; a successful inherit never produces a
new wrapping key; each failed condition rejects with
`EINVAL`/`ENOENT`/`EACCES` (no-parent-name and unencrypted-parent also
reject `EINVAL`); and in both modes an Unavailable own key rejects with
`EACCES` once the mode's earlier checks pass. -/
theorem rewrap_inherit_conditions (a : RewrapInput)
    (hf : a.featureEnabled = true) (hc : a.crypt ≠ ZIO_CRYPT_OFF) :
    (a.inheritkey = true →
      ((zfs_crypto_rewrap a = Except.ok false ↔
        (a.is_encroot = true ∧ a.hasParentName = true ∧ a.parentExists = true ∧
         a.pcrypt ≠ ZIO_CRYPT_OFF ∧ a.pkeystatus ≠ ZFS_KEYSTATUS_UNAVAILABLE ∧
         a.keystatus ≠ ZFS_KEYSTATUS_UNAVAILABLE)) ∧
       (∀ b, zfs_crypto_rewrap a = Except.ok b → b = false) ∧
       (a.is_encroot = false → zfs_crypto_rewrap a = Except.error EINVAL) ∧
       (a.is_encroot = true → a.hasParentName = false →
         zfs_crypto_rewrap a = Except.error EINVAL) ∧
       (a.is_encroot = true → a.hasParentName = true → a.parentExists = false →
         zfs_crypto_rewrap a = Except.error ENOENT) ∧
       (a.is_encroot = true → a.hasParentName = true → a.parentExists = true →
         a.pcrypt = ZIO_CRYPT_OFF → zfs_crypto_rewrap a = Except.error EINVAL) ∧
       (a.is_encroot = true → a.hasParentName = true → a.parentExists = true →
         a.pcrypt ≠ ZIO_CRYPT_OFF → a.pkeystatus = ZFS_KEYSTATUS_UNAVAILABLE →
         zfs_crypto_rewrap a = Except.error EACCES))) ∧
    (a.keystatus = ZFS_KEYSTATUS_UNAVAILABLE →
      (a.inheritkey = false → a.propsValid = true →
        zfs_crypto_rewrap a = Except.error EACCES) ∧
      (a.inheritkey = true → a.is_encroot = true → a.hasParentName = true →
        a.parentExists = true → a.pcrypt ≠ ZIO_CRYPT_OFF →
        a.pkeystatus ≠ ZFS_KEYSTATUS_UNAVAILABLE →
        zfs_crypto_rewrap a = Except.error EACCES)) := by
  constructor
  · intro hik
    refine ⟨?_, ?_, ?_, ?_, ?_, ?_, ?_⟩
    · constructor
      · intro hok
        rw [zfs_crypto_rewrap, if_neg (by simp [hf]), if_neg hc,
          if_neg (by simp [hik])] at hok
        by_cases h1 : a.is_encroot = false
        · rw [if_pos h1] at hok
          exact absurd hok (by simp)
        · rw [if_neg h1] at hok
          by_cases h2 : a.hasParentName = false
          · rw [if_pos h2] at hok
            exact absurd hok (by simp)
          · rw [if_neg h2] at hok
            by_cases h3 : a.parentExists = false
            · rw [if_pos h3] at hok
              exact absurd hok (by simp)
            · rw [if_neg h3] at hok
              by_cases h4 : a.pcrypt = ZIO_CRYPT_OFF
              · rw [if_pos h4] at hok
                exact absurd hok (by simp)
              · rw [if_neg h4] at hok
                by_cases h5 : a.pkeystatus = ZFS_KEYSTATUS_UNAVAILABLE
                · rw [if_pos h5] at hok
                  exact absurd hok (by simp)
                · rw [if_neg h5] at hok
                  by_cases h6 : a.keystatus = ZFS_KEYSTATUS_UNAVAILABLE
                  · rw [if_pos h6] at hok
                    exact absurd hok (by simp)
                  · exact ⟨by simpa using h1, by simpa using h2, by simpa using h3,
                      h4, h5, h6⟩
      · intro ⟨h1, h2, h3, h4, h5, h6⟩
        rw [zfs_crypto_rewrap, if_neg (by simp [hf]), if_neg hc,
          if_neg (by simp [hik]), if_neg (by simp [h1]), if_neg (by simp [h2]),
          if_neg (by simp [h3]), if_neg h4, if_neg h5, if_neg h6]
    · intro b hok
      rw [zfs_crypto_rewrap, if_neg (by simp [hf]), if_neg hc,
        if_neg (by simp [hik])] at hok
      by_cases h1 : a.is_encroot = false
      · rw [if_pos h1] at hok
        exact absurd hok (by simp)
      · rw [if_neg h1] at hok
        by_cases h2 : a.hasParentName = false
        · rw [if_pos h2] at hok
          exact absurd hok (by simp)
        · rw [if_neg h2] at hok
          by_cases h3 : a.parentExists = false
          · rw [if_pos h3] at hok
            exact absurd hok (by simp)
          · rw [if_neg h3] at hok
            by_cases h4 : a.pcrypt = ZIO_CRYPT_OFF
            · rw [if_pos h4] at hok
              exact absurd hok (by simp)
            · rw [if_neg h4] at hok
              by_cases h5 : a.pkeystatus = ZFS_KEYSTATUS_UNAVAILABLE
              · rw [if_pos h5] at hok
                exact absurd hok (by simp)
              · rw [if_neg h5] at hok
                by_cases h6 : a.keystatus = ZFS_KEYSTATUS_UNAVAILABLE
                · rw [if_pos h6] at hok
                  exact absurd hok (by simp)
                · rw [if_neg h6] at hok
                  simpa using hok.symm
    · intro h1
      rw [zfs_crypto_rewrap, if_neg (by simp [hf]), if_neg hc,
        if_neg (by simp [hik]), if_pos h1]
    · intro h1 h2
      rw [zfs_crypto_rewrap, if_neg (by simp [hf]), if_neg hc,
        if_neg (by simp [hik]), if_neg (by simp [h1]), if_pos h2]
    · intro h1 h2 h3
      rw [zfs_crypto_rewrap, if_neg (by simp [hf]), if_neg hc,
        if_neg (by simp [hik]), if_neg (by simp [h1]), if_neg (by simp [h2]),
        if_pos h3]
    · intro h1 h2 h3 h4
      rw [zfs_crypto_rewrap, if_neg (by simp [hf]), if_neg hc,
        if_neg (by simp [hik]), if_neg (by simp [h1]), if_neg (by simp [h2]),
        if_neg (by simp [h3]), if_pos h4]
    · intro h1 h2 h3 h4 h5
      rw [zfs_crypto_rewrap, if_neg (by simp [hf]), if_neg hc,
        if_neg (by simp [hik]), if_neg (by simp [h1]), if_neg (by simp [h2]),
        if_neg (by simp [h3]), if_neg h4, if_pos h5]
  · intro hks
    constructor
    · intro hik hpv
      rw [zfs_crypto_rewrap, if_neg (by simp [hf]), if_neg hc, if_pos hik,
        if_neg (by simp [hpv]), if_pos hks]
    · intro hik h1 h2 h3 h4 h5
      rw [zfs_crypto_rewrap, if_neg (by simp [hf]), if_neg hc,
        if_neg (by simp [hik]), if_neg (by simp [h1]), if_neg (by simp [h2]),
        if_neg (by simp [h3]), if_neg h4, if_neg h5, if_pos hks]

theorem rewrap_inherit_conditions_witness :
    zfs_crypto_rewrap ⟨true, ZIO_CRYPT_ON, true, true, true, true, true,
        ZIO_CRYPT_ON, ZFS_KEYSTATUS_AVAILABLE, ZFS_KEYSTATUS_AVAILABLE⟩ =
      Except.ok false :=
  (((rewrap_inherit_conditions
      ⟨true, ZIO_CRYPT_ON, true, true, true, true, true,
        ZIO_CRYPT_ON, ZFS_KEYSTATUS_AVAILABLE, ZFS_KEYSTATUS_AVAILABLE⟩
      rfl (by decide)).1 rfl).1).mpr
    ⟨rfl, rfl, rfl, by decide, by decide, by decide⟩

/-! ## Recursive best-effort key loading
(`load_keys_cb` lines 1095-1125, `zfs_crypto_attempt_load_keys`
lines 1131-1164) -/

/-- What `load_keys_cb` reads from one dataset node: its encryption
property, whether its keylocation property is inherited (the two inputs
of `zfs_crypto_is_encryption_root`, lines 749-780), its key status, and
the outcome `zfs_crypto_load_key` would have on it (abstracted, since
it depends on external key material). -/
structure NodeInfo where
  crypt : Nat
  keylocInherited : Bool
  keystatus : Nat
  loadOk : Bool
deriving DecidableEq, Repr

/-- `zfs_crypto_is_encryption_root` (lines 749-780): false when the
dataset is not encrypted or its keylocation is inherited. -/
def zfs_crypto_is_encryption_root (n : NodeInfo) : Bool :=
  n.crypt ≠ ZIO_CRYPT_OFF && !n.keylocInherited

/-- A dataset with its descendants (the external tree-walk collaborator
`zfs_iter_filesystems` enumerates the children). -/
inductive DTree where
  | node : NodeInfo → List DTree → DTree

/-- `loadkey_cbdata_t` (lines 1090-1093). -/
structure Counts where
  cb_numattempted : Nat
  cb_numfailed : Nat
deriving DecidableEq, Repr

/-- `load_keys_cb` attempts a load on a node iff it is an encryption
root whose key is not already loaded (lines 1103-1110). -/
def load_attempted (n : NodeInfo) : Bool :=
  zfs_crypto_is_encryption_root n && n.keystatus ≠ ZFS_KEYSTATUS_AVAILABLE

/-- The per-node body of `load_keys_cb` (lines 1103-1117): bump
`cb_numattempted` for a qualifying node and `cb_numfailed` when its
load fails. -/
def load_keys_visit (n : NodeInfo) (c : Counts) : Counts :=
  if load_attempted n then
    ⟨c.cb_numattempted + 1, c.cb_numfailed + (if n.loadOk then 0 else 1)⟩
  else c

mutual

/-- `load_keys_cb` (lines 1095-1125): visit the node, then recurse into
every child via `zfs_iter_filesystems`; always returns 0, so the walk
never aborts — the accumulated counts are the only outcome. -/
def load_keys_cb : DTree → Counts → Counts
  | DTree.node info children, c => load_keys_cb_children children (load_keys_visit info c)

def load_keys_cb_children : List DTree → Counts → Counts
  | [], c => c
  | t :: ts, c => load_keys_cb_children ts (load_keys_cb t c)

end

mutual

/-- Number of nodes in the tree on which a load is attempted
(encryption roots with key not Available). -/
def count_attempted : DTree → Nat
  | DTree.node info children =>
    (if load_attempted info then 1 else 0) + count_attempted_children children

def count_attempted_children : List DTree → Nat
  | [] => 0
  | t :: ts => count_attempted t + count_attempted_children ts

end

mutual

/-- Number of nodes in the tree on which an attempted load fails. -/
def count_failed : DTree → Nat
  | DTree.node info children =>
    (if load_attempted info && !info.loadOk then 1 else 0) +
      count_failed_children children

def count_failed_children : List DTree → Nat
  | [] => 0
  | t :: ts => count_failed t + count_failed_children ts

end

/-- `zfs_crypto_attempt_load_keys` (lines 1131-1164): run the callback
over the tree starting from zeroed counters, report both counts, and
fail (returning -1) iff `cb_numfailed` is nonzero after the full walk. -/
def zfs_crypto_attempt_load_keys (t : DTree) : Int × Counts :=
  let c := load_keys_cb t ⟨0, 0⟩
  (if c.cb_numfailed ≠ 0 then -1 else 0, c)

mutual

theorem load_keys_cb_counts (t : DTree) :
    ∀ c : Counts, load_keys_cb t c =
      ⟨c.cb_numattempted + count_attempted t, c.cb_numfailed + count_failed t⟩ :=
  match t with
  | DTree.node info children => by
    intro c
    rw [load_keys_cb, count_attempted, count_failed,
      load_keys_cb_children_counts children, load_keys_visit]
    by_cases h : load_attempted info = true
    · by_cases hok : info.loadOk = true
      · simp [h, hok, Counts.mk.injEq] <;> omega
      · simp only [Bool.not_eq_true] at hok
        simp [h, hok, Counts.mk.injEq] <;> omega
    · simp only [Bool.not_eq_true] at h
      simp [h, Counts.mk.injEq] <;> omega

theorem load_keys_cb_children_counts (ts : List DTree) :
    ∀ c : Counts, load_keys_cb_children ts c =
      ⟨c.cb_numattempted + count_attempted_children ts,
       c.cb_numfailed + count_failed_children ts⟩ :=
  match ts with
  | [] => by
    intro c
    rw [load_keys_cb_children, count_attempted_children, count_failed_children]
    simp
  | t :: ts => by
    intro c
    rw [load_keys_cb_children, count_attempted_children, count_failed_children,
      load_keys_cb_counts t, load_keys_cb_children_counts ts]
    simp [Counts.mk.injEq] <;> omega

end

/-- C9: the recursive loader walks the whole tree, attempting a load
exactly on the encryption roots whose key is not Available; a node's
failure never aborts the walk — `cb_numattempted` and `cb_numfailed`
count attempts and failures over the entire tree — both counts are
always reported, and the overall call fails (returns -1) iff the
failure count is nonzero after the full walk. -/
theorem attempt_load_keys_best_effort (t : DTree) :
    (zfs_crypto_attempt_load_keys t).2.cb_numattempted = count_attempted t ∧
    (zfs_crypto_attempt_load_keys t).2.cb_numfailed = count_failed t ∧
    ((zfs_crypto_attempt_load_keys t).1 = 0 ↔ count_failed t = 0) := by
  rw [zfs_crypto_attempt_load_keys, load_keys_cb_counts t]
  by_cases h : count_failed t = 0 <;> simp [h]
